import Mathlib

/-!
Verification of the care-dx-app extraction/mapping/transcription pipeline
(src/app.py) against its natural-language specification.

The Python code is shallowly embedded: Python dicts become insertion-ordered
association lists, external services (the generative model, the JSON parser,
the spreadsheet) become explicit oracles/parameters, and each relevant
function of app.py is translated into a pure Lean function that additionally
returns the trace of externally visible effects (remote calls, sleeps,
file-handle deletions) needed by the claims.
-/

/-! ## Python dict model (insertion-ordered association lists) -/

/-- A Python dict with string keys, as an insertion-ordered association list. -/
abbrev Dict (V : Type) := List (String × V)

/-- Python `d[k] = v`: overwrite in place if the key exists, else append. -/
def dictSet {V : Type} (d : Dict V) (k : String) (v : V) : Dict V :=
  if d.any (fun p => p.1 = k) then
    d.map (fun p => if p.1 = k then (k, v) else p)
  else d ++ [(k, v)]

/-- Python `d.update(e)`: set every pair of `e` into `d`, in order. -/
def dictUpdate {V : Type} (d e : Dict V) : Dict V :=
  e.foldl (fun acc p => dictSet acc p.1 p.2) d

/-- Python `d.get(k)` / `d[k]`: first binding of the key, if any. -/
def dictGet? {V : Type} (d : Dict V) (k : String) : Option V :=
  match d with
  | [] => none
  | p :: rest => if p.1 = k then some p.2 else dictGet? rest k

/-- Python `list(d.keys())`. -/
def dKeys {V : Type} (d : Dict V) : List String := d.map Prod.fst

/-! ## Python string operations used by app.py -/

/-- Scanner for Python `str.split(sep)` (nonempty separator), over char lists:
leftmost, non-overlapping matches. `cur` is the current piece, reversed;
`fuel` bounds the recursion (any value at least the input length is exact). -/
def splitGo (sep : List Char) : Nat → List Char → List Char → List (List Char)
  | _, [], cur => [cur.reverse]
  | 0, _ :: _, cur => [cur.reverse]
  | fuel + 1, c :: rest, cur =>
    if sep.isPrefixOf (c :: rest) then
      cur.reverse :: splitGo sep fuel (rest.drop (sep.length - 1)) []
    else
      splitGo sep fuel rest (c :: cur)

/-- Python `s.split(sep)` over char lists, for a nonempty separator. -/
def splitList (sep s : List Char) : List (List Char) :=
  splitGo sep s.length s []

/-- Python `s.split(sep)` for a nonempty separator. -/
def pySplit (sep s : String) : List String :=
  (splitList sep.data s.data).map (fun l => ⟨l⟩)

/-- Does `pat` occur contiguously in `s` (over char lists)? -/
def containsList (pat : List Char) : List Char → Bool
  | [] => pat.isEmpty
  | c :: rest => pat.isPrefixOf (c :: rest) || containsList pat rest

/-- Python `pat in s`: contiguous-substring test. -/
def pyContains (s pat : String) : Bool :=
  containsList pat.data s.data

/-- Python `s.lower()` (ASCII-adequate, which is all app.py needs). -/
def pyLower (s : String) : String := ⟨s.data.map Char.toLower⟩

/-- The characters Python `str.strip()` removes by default. -/
def isPyWs (c : Char) : Bool :=
  c = ' ' || c = '\t' || c = '\n' || c = '\r' || c = '\x0b' || c = '\x0c'

/-- Python `s.strip()`: drop whitespace from both ends. -/
def pyStrip (s : String) : String :=
  ⟨((s.data.dropWhile isPyWs).reverse.dropWhile isPyWs).reverse⟩

/-- Python `s.startswith(pat)`. -/
def pyStartsWith (s pat : String) : Bool :=
  pat.data.isPrefixOf s.data

/-! ## Model Gateway: generate_with_retry (app.py lines 232-254) -/

/-- Outcome of one underlying `model.generate_content` call: a response
value or a raised exception carrying its message string. -/
inductive GenOutcome (R : Type) where
  | ok (r : R)
  | raised (msg : String)

/-- The rate-limit test of app.py line 241:
`"429" in s or "quota" in s.lower() or "resource exhausted" in s.lower()`. -/
def isRateLimitMsg (s : String) : Bool :=
  pyContains s "429" || pyContains (pyLower s) "quota" ||
    pyContains (pyLower s) "resource exhausted"

/-- Longest digit run at the head of a char list, and the rest. -/
def takeDigits (l : List Char) : List Char × List Char :=
  match l with
  | [] => ([], [])
  | c :: rest =>
    if c.isDigit then
      let (d, r) := takeDigits rest
      (c :: d, r)
    else ([], l)

/-- Numeric value of a digit run. -/
def digitsToNat (l : List Char) : Nat :=
  l.foldl (fun a c => a * 10 + (c.toNat - 48)) 0

/-- Matching the tail of the regex `(\d+(\.\d+)?)s` at a given position,
returning the captured number in seconds. -/
def matchNumberS (l : List Char) : Option ℚ :=
  let p1 := takeDigits l
  if p1.1.isEmpty then none
  else
    match p1.2 with
    | '.' :: r2 =>
      let p2 := takeDigits r2
      if ¬ p2.1.isEmpty ∧ p2.2.head? = some 's' then
        some ((digitsToNat p1.1 : ℚ) + (digitsToNat p2.1 : ℚ) / ((10 : ℚ) ^ p2.1.length))
      else none
    | 's' :: _ => some ((digitsToNat p1.1 : ℚ))
    | _ => none

/-- The literal part of the regex of app.py line 244. -/
def retryPat : List Char := "retry in ".data

/-- Python `re.search(r"retry in (\d+(\.\d+)?)s", s)`: leftmost position
where the whole pattern matches. -/
def searchRetry : List Char → Option ℚ
  | [] => none
  | c :: rest =>
    if retryPat.isPrefixOf (c :: rest) then
      match matchNumberS ((c :: rest).drop retryPat.length) with
      | some q => some q
      | none => searchRetry rest
    else searchRetry rest

/-- Suggested wait duration parsed from a rate-limit error message. -/
def parseRetrySeconds (s : String) : Option ℚ := searchRetry s.data

/-- app.py lines 243-246: default 32 s, or parsed duration plus a 2 s margin. -/
def waitTimeOf (msg : String) : ℚ :=
  match parseRetrySeconds msg with
  | some t => t + 2
  | none => 32

/-- Result of `generate_with_retry`: the returned response or re-raised
exception, the sleeps performed (in seconds), and the total number of
`model.generate_content` attempts made. -/
inductive GwrResult (R : Type) where
  | ok (r : R) (sleeps : List ℚ) (attempts : Nat)
  | raised (msg : String) (sleeps : List ℚ) (attempts : Nat)
  | noAttempt
deriving DecidableEq

/-- Record one extra back-off sleep in front of a retry-loop result. -/
def prependSleep {R : Type} (q : ℚ) : GwrResult R → GwrResult R
  | .ok r s a => .ok r (q :: s) a
  | .raised m s a => .raised m (q :: s) a
  | .noAttempt => .noAttempt

/-- Total `generate_content` attempts of a retry-loop result. -/
def attemptsOf {R : Type} : GwrResult R → Nat
  | .ok _ _ a => a
  | .raised _ _ a => a
  | .noAttempt => 0

/-- `generate_with_retry` (app.py lines 232-254), started at loop index
`attempt`; `oracle k` is the outcome of the `k`-th underlying call.
`attempts` counts are absolute (final index + 1). -/
def gwrFrom {R : Type} (oracle : Nat → GenOutcome R) (retries : Nat) (attempt : Nat) :
    GwrResult R :=
  if _h : attempt < retries then
    match oracle attempt with
    | .ok r => .ok r [] (attempt + 1)
    | .raised m =>
      if isRateLimitMsg m ∧ attempt < retries - 1 then
        prependSleep (waitTimeOf m) (gwrFrom oracle retries (attempt + 1))
      else .raised m [] (attempt + 1)
  else .noAttempt
termination_by retries - attempt

/-- `generate_with_retry(model, prompt_parts, retries)`. -/
def generate_with_retry {R : Type} (oracle : Nat → GenOutcome R) (retries : Nat := 3) :
    GwrResult R :=
  gwrFrom oracle retries 0

/-! ## JSON parsing oracle and markdown-fence stripping -/

/-- Outcome of Python `json.loads`: a parsed top-level object, or a raised
`JSONDecodeError` carrying its message. The parser itself is external
(Python's json module), so it is a parameter of the embedding. -/
inductive JsonResult (V : Type) where
  | ok (d : Dict V)
  | fail (msg : String)

/-- The external `json.loads`, as an oracle from input text to outcome. -/
abbrev JsonOracle (V : Type) := String → JsonResult V

/-- Markdown-fence stripping shared by the extractor (app.py lines 515-518),
the reconciler (lines 386-389) and the audio-assessment path (lines 620-623):
keep the content between the fences, then strip whitespace. -/
def stripFenceKeepInner (text : String) : String :=
  if pyContains text "```json" then
    pyStrip ((pySplit "```" ((pySplit "```json" text).getD 1 "")).headD "")
  else if pyContains text "```" then
    pyStrip ((pySplit "```" ((pySplit "```" text).getD 1 "")).headD "")
  else text

/-- Fence cleaning of generate_service_meeting_summary (app.py lines 749-752):
the plain-fence branch keeps `text.split("```")[0]`, the part BEFORE the
first fence, and no branch strips whitespace. -/
def serviceCleanResponse (text : String) : String :=
  if pyContains text "```json" then
    (pySplit "```" ((pySplit "```json" text).getD 1 "")).headD ""
  else if pyContains text "```" then
    (pySplit "```" text).headD ""
  else text

/-- Fence cleaning of generate_management_meeting_summary (app.py lines
835-839): strip, then startswith-guarded between-fences extraction. -/
def mgmtCleanResponse (text : String) : String :=
  let t := pyStrip text
  if pyStartsWith t "```json" then
    pyStrip ((pySplit "```" ((pySplit "```json" t).getD 1 "")).headD "")
  else if pyStartsWith t "```" then
    pyStrip ((pySplit "```" ((pySplit "```" t).getD 1 "")).headD "")
  else t

/-- The closing-token suffixes tried by the extractor's truncation repair
(app.py line 528). -/
def repairPatterns : List String :=
  ["\"\x7d", "\"]\x7d", "\"]", "\x7d", "\"\x7d\x7d", "\"\x7d\x7d\x7d", "\"\x7d\x7d\x7d\x7d"]

/-- Try `json.loads(text + p)` for each repair suffix in order, returning the
first success; `log` accumulates every text handed to the parser. -/
def repairLoop {V : Type} (jp : JsonOracle V) (text : String) :
    List String → List String → Option (Dict V) × List String
  | [], log => (none, log)
  | p :: ps, log =>
    match jp (text ++ p) with
    | .ok d => (some d, log ++ [text ++ p])
    | .fail _ => repairLoop jp text ps (log ++ [text ++ p])

/-- The extractor's parse-with-progressive-repair (app.py lines 520-536):
straight parse, then on an unterminated-string failure the suffix patterns,
in order. Also returns every text handed to `json.loads`. -/
def parseWithRepair {V : Type} (jp : JsonOracle V) (text : String) :
    Option (Dict V) × List String :=
  match jp text with
  | .ok d => (some d, [text])
  | .fail e =>
    if pyContains e "Unterminated string" then
      repairLoop jp text repairPatterns [text]
    else (none, [text])

/-- The reconciler's single-pattern repair (app.py lines 391-403). -/
def mapParse {V : Type} (jp : JsonOracle V) (text : String) : Option (Dict V) :=
  match jp text with
  | .ok d => some d
  | .fail e =>
    if pyContains e "Unterminated string" then
      match jp (text ++ "\"\x7d") with
      | .ok d => some d
      | .fail _ => none
    else none

/-! ## Document Extractor: extract_from_pdf (app.py lines 420-565) -/

/-- Outcome of one `generate_with_retry` call inside the per-fragment loop:
a raised exception, a content-blocked response (no candidates), or a
response with text. -/
inductive FragAttempt where
  | raised (msg : String)
  | blocked (reason : String)
  | text (t : String)

/-- Result of the per-fragment retry loop (app.py lines 466-509): the
response text on success or the propagated exception message, together with
the number of `generate_with_retry` calls made for this fragment. -/
inductive FragLoopResult where
  | success (t : String) (calls : Nat)
  | failure (msg : String) (calls : Nat)
deriving DecidableEq

/-- Message of the exception raised after the 5th consecutive block
(app.py line 494). -/
def sectionBlockedMsg (sect : String) : String :=
  sect ++ " blocked after 5 retries"

/-- The per-fragment while-loop of app.py lines 466-509. `att j` is the
outcome of the fragment's `j`-th `generate_with_retry` call; `fuel` is
`max_retries - retry_count` (entry value 5); `calls` counts calls made. -/
def fragGo (att : Nat → FragAttempt) (sect : String) :
    Nat → Nat → FragLoopResult
  | 0, calls => .failure "loop exhausted" calls
  | fuel + 1, calls =>
    match att calls with
    | .text t => .success t (calls + 1)
    | .blocked _ =>
      if fuel = 0 then .failure (sectionBlockedMsg sect) (calls + 1)
      else fragGo att sect fuel (calls + 1)
    | .raised m =>
      if pyContains m "blocked after" then .failure m (calls + 1)
      else if fuel = 0 then .failure m (calls + 1)
      else fragGo att sect fuel (calls + 1)

/-- Body of one iteration of the fragment loop of extract_from_pdf (app.py
lines 455-550): run the retry loop, and on success fence-strip, parse with
repair, and merge a truthy (nonempty) result into the accumulator. Every
failure is caught per-fragment; the accumulator is otherwise untouched.
Returns the new accumulator and this fragment's call count. -/
def processFragment {V : Type} (jp : JsonOracle V) (att : Nat → FragAttempt)
    (sect : String) (acc : Dict V) : Dict V × Nat :=
  match fragGo att sect 5 0 with
  | .failure _ c => (acc, c)
  | .success t c =>
    match (parseWithRepair jp (stripFenceKeepInner t)).1 with
    | some d => (if d.isEmpty then acc else dictUpdate acc d, c)
    | none => (acc, c)

/-- Sequential fragment processing (the for-loop at app.py line 455).
`gen i` is the call oracle for fragment `i`. Returns the final accumulator
and the list of per-fragment call counts. -/
def runFragments {V : Type} (jp : JsonOracle V) (gen : Nat → Nat → FragAttempt) :
    List String → Nat → Dict V → Dict V × List Nat
  | [], _, acc => (acc, [])
  | s :: rest, i, acc =>
    let r1 := processFragment jp (gen i) s acc
    let r2 := runFragments jp gen rest (i + 1) r1.1
    (r2.1, r1.2 :: r2.2)

/-- One source file's fate in the upload loop of app.py lines 430-448:
an exception raised while reading/uploading/polling, a handle whose
server-side ingestion ended in the FAILED state (skipped, not tracked),
or a ready handle (tracked in `uploaded_parts`). -/
inductive UploadEvent where
  | uraised (msg : String)
  | ufail (handle : String)
  | uok (handle : String)

/-- The upload loop: returns (tracked handles, all handles the service
created, exception message if one was raised). An exception aborts the
loop; a FAILED file is skipped without being tracked. -/
def uploadPhase : List UploadEvent → List String × List String × Option String
  | [] => ([], [], none)
  | .uraised m :: _ => ([], [], some m)
  | .ufail h :: rest =>
    let r := uploadPhase rest
    (r.1, h :: r.2.1, r.2.2)
  | .uok h :: rest =>
    let r := uploadPhase rest
    (h :: r.1, h :: r.2.1, r.2.2)

/-- Everything externally observable about one extract_from_pdf run. -/
structure ExtractRun (V : Type) where
  result : Option (Dict V)
  deletes : List String
  uploaded : List String
  callsPerFrag : List Nat
deriving DecidableEq

/-- The try-body of extract_from_pdf: upload files, then process fragments;
an upload exception propagates (per-fragment exceptions do not). -/
def extractBody {V : Type} (jp : JsonOracle V) (uploads : List UploadEvent)
    (gen : Nat → Nat → FragAttempt) (sections : List String) :
    Except String (Dict V × List Nat) :=
  match (uploadPhase uploads).2.2 with
  | some m => .error m
  | none => .ok (runFragments jp gen sections 0 [])

/-- extract_from_pdf (app.py lines 420-565): try/except/finally. The except
arm turns a pipeline-level exception into result `None`; the finally arm
deletes every TRACKED handle on both paths. -/
def extract_from_pdf {V : Type} (jp : JsonOracle V) (uploads : List UploadEvent)
    (gen : Nat → Nat → FragAttempt) (sections : List String) : ExtractRun V :=
  let up := uploadPhase uploads
  match extractBody jp uploads gen sections with
  | .error _ =>
    { result := none, deletes := up.1, uploaded := up.2.1, callsPerFrag := [] }
  | .ok r =>
    { result := some r.1, deletes := up.1, uploaded := up.2.1, callsPerFrag := r.2 }

/-! ## Schema Reconciler: map_extracted_data_to_schema (app.py lines 297-417) -/

/-- A schema entry: target cell plus optional enumerated choices. -/
structure SchemaEntry where
  cell : String
  options : List String
deriving DecidableEq

/-- Fuel-bounded 30-field batch slicing; any fuel at least the input length
is exact. -/
def batchSlicesGo {α : Type} : Nat → List α → List (List α)
  | _, [] => []
  | 0, _ :: _ => []
  | fuel + 1, c :: rest => ((c :: rest).take 30) :: batchSlicesGo fuel ((c :: rest).drop 30)

/-- 30-field batch slicing (app.py lines 317, 326-327). -/
def batchSlices {α : Type} (l : List α) : List (List α) :=
  batchSlicesGo l.length l

/-- Outcome of the one `generate_with_retry` call a reconciliation batch
makes: a raised exception (caught at app.py line 407), a content-blocked
response (skipped at lines 374-381), or a response with text. -/
inductive BatchOutcome where
  | raised (msg : String)
  | blocked (reason : String)
  | text (t : String)

/-- The contribution of batch `i` to the merged record (app.py lines
369-405): empty on exception, block, or unrecoverable parse failure;
otherwise the parsed batch object. -/
def batchResult {V : Type} (jp : JsonOracle V) (bor : Nat → BatchOutcome)
    (i : Nat) : Dict V :=
  match bor i with
  | .raised _ => []
  | .blocked _ => []
  | .text t =>
    match mapParse jp (stripFenceKeepInner t) with
    | some d => d
    | none => []

/-- map_extracted_data_to_schema (app.py lines 297-417): early return of the
raw record when either input is empty, else merge the per-batch results of
`ceil(N/30)` batches. Returns the result and the number of batches issued. -/
def map_extracted_data_to_schema {V W : Type} (jp : JsonOracle W)
    (bor : Nat → BatchOutcome) (mapping : Dict V) (raw : Dict W) :
    Dict W × Nat :=
  if mapping.isEmpty || raw.isEmpty then (raw, 0)
  else
    let chunks := batchSlices (dKeys mapping)
    let merged := (List.range chunks.length).foldl
      (fun acc i =>
        let b := batchResult jp bor i
        if b.isEmpty then acc else dictUpdate acc b) []
    (merged, chunks.length)

/-! ## Audio Summarizer post-processing (app.py lines 741-766, 833-844) -/

/-- The mandatory conclusion phrase of app.py line 757. -/
def mandatoryText : String := "サービス担当へ、個別援助計画書の提出を依頼する"

/-- The conclusion key. -/
def conclusionKey : String := "結論"

/-- The mandatory-phrase post-condition enforcement of app.py lines 756-761:
if the conclusion key exists and its value lacks the phrase, append the
phrase after a bullet; otherwise leave the record untouched. -/
def enforceMandatoryPhrase (d : Dict String) : Dict String :=
  match dictGet? d conclusionKey with
  | none => d
  | some v =>
    if pyContains v mandatoryText then d
    else dictSet d conclusionKey (v ++ "\n・" ++ mandatoryText)

/-- Response handling of generate_service_meeting_summary (app.py lines
747-766): clean, one `json.loads`, enforce the mandatory phrase; any parse
failure is caught and surfaced as `none`. Also returns the list of texts
handed to `json.loads` (exactly one; no repair). -/
def serviceSummaryPost (jp : JsonOracle String) (respText : String) :
    Option (Dict String) × List String :=
  let cleaned := serviceCleanResponse respText
  match jp cleaned with
  | .ok d => (some (enforceMandatoryPhrase d), [cleaned])
  | .fail _ => (none, [cleaned])

/-- The fallback record returned by generate_management_meeting_summary on
any failure (app.py line 844). -/
def mgmtFallback : Dict String :=
  [("agenda", ""), ("support_24h", ""), ("sharing_matters", "")]

/-- Response handling of generate_management_meeting_summary (app.py lines
833-844): clean, one `json.loads`; a parse failure is caught and the fixed
fallback record is returned instead of `None`. Also returns the list of
texts handed to `json.loads` (exactly one; no repair). -/
def mgmtSummaryPost (jp : JsonOracle String) (respText : String) :
    Option (Dict String) × List String :=
  let cleaned := mgmtCleanResponse respText
  match jp cleaned with
  | .ok d => (some d, [cleaned])
  | .fail _ => (some mgmtFallback, [cleaned])

/-! ## Sheet Writer: write_to_sheet (app.py lines 1237-1281) -/

/-- The blank sentinel of app.py line 1262. -/
def blankSentinel : String := "（空白）"

/-- The batch-construction loop of write_to_sheet (app.py lines 1254-1270):
iterate the extracted record's items in insertion order; for each key that
is a schema field emit one (cell, value) pair, replacing a sentinel value
with the empty string; count the emitted pairs. -/
def buildSheetUpdates (extracted : Dict String) (mapping : Dict SchemaEntry) :
    List (String × String) × Nat :=
  extracted.foldl
    (fun acc kv =>
      match dictGet? mapping kv.1 with
      | some entry =>
        (acc.1 ++ [(entry.cell, if kv.2 = blankSentinel then "" else kv.2)], acc.2 + 1)
      | none => acc)
    ([], 0)

/-- app.py lines 1272-1274: `worksheet.batch_update` is called once when the
update list is nonempty, and not at all otherwise. -/
def batchUpdateCalls (updates : List (String × String)) : Nat :=
  if updates.isEmpty then 0 else 1

/-- write_to_sheet's externally observable outcome: the update pairs, the
reported write count, and the number of remote batch-write calls issued. -/
def write_to_sheet (extracted : Dict String) (mapping : Dict SchemaEntry) :
    List (String × String) × Nat × Nat :=
  let b := buildSheetUpdates extracted mapping
  (b.1, b.2, batchUpdateCalls b.1)

/-- Modelled from the spec (section 4.7 wording, for comparison only): a
write batch built by iterating the SCHEMA in field order, emitting a pair
for every field present in the record. The code does not do this; see the
C7 counterexample. -/
def schemaOrderBatch (extracted : Dict String) (mapping : Dict SchemaEntry) :
    List (String × String) :=
  mapping.filterMap
    (fun me =>
      match dictGet? extracted me.1 with
      | some v => some (me.2.cell, if v = blankSentinel then "" else v)
      | none => none)

/-- The amended construction: iterate the RECORD's items in insertion order,
emitting one pair per item whose key is a schema field. -/
def recordOrderBatch (extracted : Dict String) (mapping : Dict SchemaEntry) :
    List (String × String) :=
  extracted.filterMap
    (fun kv =>
      (dictGet? mapping kv.1).map
        (fun e => (e.cell, if kv.2 = blankSentinel then "" else kv.2)))

/-! ## The audio run's upload/cleanup block (app.py lines 2188-2343) -/

/-- Fate of the audio-run body after a successful upload: completes, or
raises somewhere (polling, FAILED state, summarizing, writing). -/
inductive BodyOutcome where
  | ok
  | raised (msg : String)

/-- Externally observable outcome of the audio run's try/except/finally. -/
structure AudioRun where
  succeeded : Bool
  deletes : List String
deriving DecidableEq

/-- The module-level audio run (app.py lines 2188-2343): `audio_file` starts
as `None`; `upload` is what `upload_file_to_gemini_safely` returned; the
finally block deletes the handle whenever one was assigned, on every exit
path. -/
def audioMeetingRun (upload : Option String) (rest : BodyOutcome) : AudioRun :=
  match upload with
  | none => { succeeded := false, deletes := [] }
  | some h =>
    match rest with
    | .raised _ => { succeeded := false, deletes := [h] }
    | .ok => { succeeded := true, deletes := [h] }

/-! ## Helper lemmas: dict operations -/

theorem dKeys_dictSet {V : Type} (d : Dict V) (k : String) (v : V) :
    dKeys (dictSet d k v) = if d.any (fun p => p.1 = k) then dKeys d else dKeys d ++ [k] := by
  unfold dictSet
  split
  · simp only [dKeys, List.map_map]
    congr 1
    funext p
    by_cases h : p.1 = k <;> simp [h]
  · simp [dKeys]

theorem dKeys_subset_dictSet {V : Type} (d : Dict V) (k : String) (v : V) :
    dKeys d ⊆ dKeys (dictSet d k v) := by
  rw [dKeys_dictSet]
  split
  · exact fun x hx => hx
  · exact fun x hx => List.mem_append_left _ hx

theorem dKeys_dictSet_subset {V : Type} (d : Dict V) (k : String) (v : V) :
    dKeys (dictSet d k v) ⊆ dKeys d ++ [k] := by
  rw [dKeys_dictSet]
  split
  · exact fun x hx => List.mem_append_left _ hx
  · exact fun x hx => hx

theorem dKeys_subset_dictUpdate {V : Type} (d e : Dict V) :
    dKeys d ⊆ dKeys (dictUpdate d e) := by
  induction e generalizing d with
  | nil => exact fun x hx => hx
  | cons p rest ih =>
    intro x hx
    exact ih (dictSet d p.1 p.2) (dKeys_subset_dictSet d p.1 p.2 hx)

theorem dKeys_dictUpdate_subset {V : Type} (d e : Dict V) :
    dKeys (dictUpdate d e) ⊆ dKeys d ++ dKeys e := by
  induction e generalizing d with
  | nil => simp [dictUpdate]
  | cons p rest ih =>
    intro x hx
    have h1 := ih (dictSet d p.1 p.2) hx
    rcases List.mem_append.mp h1 with h2 | h2
    · have h3 := dKeys_dictSet_subset d p.1 p.2 h2
      rcases List.mem_append.mp h3 with h4 | h4
      · exact List.mem_append_left _ h4
      · refine List.mem_append_right _ ?_
        simp only [dKeys, List.map_cons, List.mem_cons]
        left
        simpa using h4
    · refine List.mem_append_right _ ?_
      simp only [dKeys, List.map_cons, List.mem_cons]
      right
      exact h2

theorem dictGet?_map_overwrite {V : Type} (d : Dict V) (k : String) (w : V) :
    d.any (fun p => p.1 = k) = true →
    dictGet? (d.map (fun p => if p.1 = k then (k, w) else p)) k = some w := by
  induction d with
  | nil => simp
  | cons p rest ih =>
    intro hany
    by_cases h : p.1 = k
    · simp [dictGet?, h]
    · simp only [List.any_cons, Bool.or_eq_true, decide_eq_true_eq] at hany
      rcases hany with h1 | h1
      · exact absurd h1 h
      · simp only [List.map_cons, if_neg h, dictGet?, if_neg h]
        exact ih h1

theorem dictGet?_append_single {V : Type} (d : Dict V) (k : String) (w : V) :
    (∀ p ∈ d, p.1 ≠ k) → dictGet? (d ++ [(k, w)]) k = some w := by
  induction d with
  | nil => simp [dictGet?]
  | cons p rest ih =>
    intro hall
    have hp : p.1 ≠ k := hall p (List.mem_cons_self p rest)
    simp only [List.cons_append, dictGet?, if_neg hp]
    exact ih (fun q hq => hall q (List.mem_cons_of_mem p hq))

theorem dictGet?_dictSet_self {V : Type} (d : Dict V) (k : String) (w : V) :
    dictGet? (dictSet d k w) k = some w := by
  unfold dictSet
  by_cases h : d.any (fun p => p.1 = k) = true
  · rw [if_pos h]
    exact dictGet?_map_overwrite d k w h
  · rw [if_neg h]
    refine dictGet?_append_single d k w ?_
    intro p hp hpk
    exact h (List.any_eq_true.mpr ⟨p, hp, by simpa using hpk⟩)

theorem mem_dKeys_iff_isSome {V : Type} (d : Dict V) (k : String) :
    k ∈ dKeys d ↔ (dictGet? d k).isSome := by
  induction d with
  | nil => simp [dKeys, dictGet?]
  | cons p rest ih =>
    simp only [dKeys, List.map_cons, List.mem_cons, dictGet?]
    by_cases h : p.1 = k
    · simp [h]
    · simp only [if_neg h]
      constructor
      · rintro (h1 | h1)
        · exact absurd h1.symm h
        · exact ih.mp h1
      · intro h1
        exact Or.inr (ih.mpr h1)

theorem dictGet?_eq_none_iff {V : Type} (d : Dict V) (k : String) :
    dictGet? d k = none ↔ k ∉ dKeys d := by
  rw [mem_dKeys_iff_isSome]
  cases h : dictGet? d k <;> simp [h]

/-! ## Helper lemmas: substring containment -/

theorem containsList_iff_sub (pat : List Char) (l : List Char) :
    containsList pat l = true ↔ pat <:+: l := by
  induction l with
  | nil =>
    simp only [containsList, List.isEmpty_iff]
    constructor
    · intro h; rw [h]
    · intro h; exact List.eq_nil_of_infix_nil h
  | cons c rest ih =>
    simp only [containsList, Bool.or_eq_true, List.isPrefixOf_iff_prefix, ih,
      List.infix_cons_iff]

theorem pyContains_iff_sub (s pat : String) :
    pyContains s pat = true ↔ pat.data <:+: s.data :=
  containsList_iff_sub pat.data s.data

/-! ## Helper lemmas: generate_with_retry -/

theorem attemptsOf_prependSleep {R : Type} (q : ℚ) (x : GwrResult R) :
    attemptsOf (prependSleep q x) = attemptsOf x := by
  cases x <;> rfl

theorem attemptsOf_gwrFrom_le {R : Type} (oracle : Nat → GenOutcome R)
    (retries : Nat) : ∀ k, attemptsOf (gwrFrom oracle retries k) ≤ retries := by
  suffices H : ∀ n k, retries - k ≤ n → attemptsOf (gwrFrom oracle retries k) ≤ retries by
    exact fun k => H (retries - k) k le_rfl
  intro n
  induction n with
  | zero =>
    intro k hk
    rw [gwrFrom, dif_neg (by omega)]
    simp [attemptsOf]
  | succ n ih =>
    intro k hk
    rw [gwrFrom]
    split
    · rename_i hlt
      cases horacle : oracle k with
      | ok r => simpa [attemptsOf] using hlt
      | raised m =>
        dsimp only
        split
        · rw [attemptsOf_prependSleep]
          exact ih (k + 1) (by omega)
        · simpa [attemptsOf] using hlt
    · simp [attemptsOf]

/-- C5: on a rate-limit error the gateway sleeps the parsed duration plus a
2-second margin (32 s when none is parseable) and retries; a non-rate-limit
error propagates immediately with no sleep and no retry; in total at most
`retries` attempts are made. -/
theorem C5_gateway_retry_policy {R : Type} (oracle : Nat → GenOutcome R) (retries : Nat) :
    (∀ k m, k < retries → oracle k = .raised m → isRateLimitMsg m = false →
      gwrFrom oracle retries k = .raised m [] (k + 1)) ∧
    (∀ k m, k + 1 < retries → oracle k = .raised m → isRateLimitMsg m = true →
      gwrFrom oracle retries k =
        prependSleep (waitTimeOf m) (gwrFrom oracle retries (k + 1))) ∧
    (∀ m, parseRetrySeconds m = none → waitTimeOf m = 32) ∧
    (∀ m t, parseRetrySeconds m = some t → waitTimeOf m = t + 2) ∧
    attemptsOf (generate_with_retry oracle retries) ≤ retries := by
  refine ⟨?_, ?_, ?_, ?_, ?_⟩
  · intro k m hk horacle hrl
    rw [gwrFrom, dif_pos hk, horacle]
    dsimp only
    rw [if_neg]
    intro hcond
    rw [hrl] at hcond
    exact Bool.false_ne_true hcond.1
  · intro k m hk horacle hrl
    rw [gwrFrom, dif_pos (by omega : k < retries), horacle]
    dsimp only
    rw [if_pos ⟨hrl, by omega⟩]
  · intro m h
    unfold waitTimeOf
    rw [h]
  · intro m t h
    unfold waitTimeOf
    rw [h]
  · exact attemptsOf_gwrFrom_le oracle retries 0

/-- Witness for C5 at a concrete input: a non-rate-limit error on the first
attempt propagates at once, with no sleep and a single attempt. -/
theorem C5_gateway_retry_policy_witness :
    gwrFrom (fun _ => GenOutcome.raised (R := Unit) "boom") 3 0 =
      .raised "boom" [] 1 :=
  (C5_gateway_retry_policy (fun _ => GenOutcome.raised (R := Unit) "boom") 3).1
    0 "boom" (by decide) rfl (by decide)

/-! ## Claim C4: mandatory-phrase post-condition -/

/-- C4: when the conclusion field is present without the mandatory phrase,
post-processing appends the phrase after the original value, verbatim; when
the key is absent the record is returned unchanged, without error. -/
theorem C4_mandatory_phrase (d : Dict String) :
    (∀ v, dictGet? d conclusionKey = some v → pyContains v mandatoryText = false →
      dictGet? (enforceMandatoryPhrase d) conclusionKey =
          some (v ++ "\n・" ++ mandatoryText) ∧
        pyContains (v ++ "\n・" ++ mandatoryText) mandatoryText = true) ∧
    (dictGet? d conclusionKey = none → enforceMandatoryPhrase d = d) := by
  constructor
  · intro v hget hmiss
    unfold enforceMandatoryPhrase
    rw [hget]
    dsimp only
    rw [if_neg (by simp [hmiss])]
    refine ⟨dictGet?_dictSet_self d conclusionKey _, ?_⟩
    rw [pyContains_iff_sub]
    refine ⟨(v ++ "\n・").data, [], ?_⟩
    simp [String.data_append, List.append_assoc]
  · intro hnone
    unfold enforceMandatoryPhrase
    rw [hnone]

/-! ## Helper lemmas: sheet writer -/

theorem recordOrderBatch_cons (kv : String × String) (rest : Dict String)
    (mapping : Dict SchemaEntry) :
    recordOrderBatch (kv :: rest) mapping =
      (match dictGet? mapping kv.1 with
        | some e => [(e.cell, if kv.2 = blankSentinel then "" else kv.2)]
        | none => []) ++ recordOrderBatch rest mapping := by
  unfold recordOrderBatch
  cases h : dictGet? mapping kv.1 <;> simp [List.filterMap_cons, h]

theorem buildSheetUpdates_foldl (mapping : Dict SchemaEntry) :
    ∀ (extracted : Dict String) (acc : List (String × String) × Nat),
      extracted.foldl
        (fun acc kv =>
          match dictGet? mapping kv.1 with
          | some entry =>
            (acc.1 ++ [(entry.cell, if kv.2 = blankSentinel then "" else kv.2)], acc.2 + 1)
          | none => acc) acc =
      (acc.1 ++ recordOrderBatch extracted mapping,
        acc.2 + (recordOrderBatch extracted mapping).length) := by
  intro extracted
  induction extracted with
  | nil => intro acc; simp [recordOrderBatch]
  | cons kv rest ih =>
    intro acc
    rw [List.foldl_cons, recordOrderBatch_cons]
    cases h : dictGet? mapping kv.1 with
    | none => simp only [h]; rw [ih]; simp
    | some e => simp only [h]; rw [ih]; simp [List.append_assoc]; omega

theorem buildSheetUpdates_eq (extracted : Dict String) (mapping : Dict SchemaEntry) :
    buildSheetUpdates extracted mapping =
      (recordOrderBatch extracted mapping, (recordOrderBatch extracted mapping).length) := by
  unfold buildSheetUpdates
  rw [buildSheetUpdates_foldl]
  simp

/-- C6: write_to_sheet issues exactly one remote batch-write call whenever
some record key is a schema field, and never more than one call. -/
theorem C6_single_write_call (extracted : Dict String) (mapping : Dict SchemaEntry) :
    (∀ k v, (k, v) ∈ extracted → k ∈ dKeys mapping →
      (write_to_sheet extracted mapping).2.2 = 1) ∧
    (write_to_sheet extracted mapping).2.2 ≤ 1 := by
  constructor
  · intro k v hmem hkey
    have hsome : (dictGet? mapping k).isSome := (mem_dKeys_iff_isSome mapping k).mp hkey
    obtain ⟨e, he⟩ := Option.isSome_iff_exists.mp hsome
    simp only [write_to_sheet, buildSheetUpdates_eq, batchUpdateCalls]
    rw [if_neg]
    intro hemp
    rw [List.isEmpty_iff] at hemp
    have hnone := List.filterMap_eq_nil_iff.mp hemp (k, v) hmem
    simp [he] at hnone
  · simp only [write_to_sheet, batchUpdateCalls]
    split <;> omega

/-- Witness for C6 at a concrete input: a one-field record matching a
one-field schema yields exactly one remote write call. -/
theorem C6_single_write_call_witness :
    (write_to_sheet [("a", "1")] [("a", ⟨"A1", []⟩)]).2.2 = 1 :=
  (C6_single_write_call [("a", "1")] [("a", ⟨"A1", []⟩)]).1
    "a" "1" (by decide) (by decide)

/-- C7 counterexample: with record insertion order ("b" then "a") opposite
to schema field order ("a" then "b"), the code's write batch differs from
the schema-field-order batch the claim describes. -/
theorem C7_counterexample :
    (write_to_sheet [("b", "2"), ("a", "1")]
        [("a", ⟨"A1", []⟩), ("b", ⟨"B1", []⟩)]).1 ≠
      schemaOrderBatch [("b", "2"), ("a", "1")]
        [("a", ⟨"A1", []⟩), ("b", ⟨"B1", []⟩)] := by
  decide

theorem dictGet?_append_middle {V : Type} (pre : Dict V) (k : String) (e : V)
    (post : Dict V) (h : k ∉ dKeys pre) :
    dictGet? (pre ++ (k, e) :: post) k = some e := by
  induction pre with
  | nil => simp [dictGet?]
  | cons p rest ih =>
    simp only [dKeys, List.map_cons, List.mem_cons, not_or] at h
    rw [List.cons_append]
    show (if p.1 = k then some p.2 else dictGet? (rest ++ (k, e) :: post) k) = some e
    rw [if_neg (fun hc => h.1 hc.symm)]
    exact ih (by simpa [dKeys] using h.2)

theorem perm_record_schema :
    ∀ (extracted : Dict String) (mapping : Dict SchemaEntry),
      (dKeys extracted).Nodup → (dKeys mapping).Nodup →
      (recordOrderBatch extracted mapping).Perm (schemaOrderBatch extracted mapping) := by
  intro extracted
  induction extracted with
  | nil =>
    intro mapping _ _
    have h : schemaOrderBatch [] mapping = [] := by
      refine List.filterMap_eq_nil_iff.mpr ?_
      intro me _
      rfl
    rw [h]
    rfl
  | cons kv rest ih =>
    intro mapping hne hnm
    have hne' : kv.1 ∉ dKeys rest ∧ (dKeys rest).Nodup := by
      have : (kv.1 :: dKeys rest).Nodup := by simpa [dKeys] using hne
      exact ⟨(List.nodup_cons.mp this).1, (List.nodup_cons.mp this).2⟩
    by_cases hk : kv.1 ∈ dKeys mapping
    · -- the record key is a schema field: mapping = pre ++ (kv.1, e) :: post
      obtain ⟨me, hmem, hme1⟩ := List.mem_map.mp hk
      obtain ⟨pre, post, hsplit⟩ := List.append_of_mem hmem
      obtain ⟨k0, e⟩ := me
      obtain rfl : k0 = kv.1 := hme1
      subst hsplit
      have hmid : kv.1 ∉ dKeys pre ++ dKeys post ∧ (dKeys pre ++ dKeys post).Nodup := by
        have h1 : (dKeys pre ++ kv.1 :: dKeys post).Nodup := by
          simpa [dKeys, List.map_append] using hnm
        have h2 := List.nodup_middle.mp h1
        exact ⟨(List.nodup_cons.mp h2).1, (List.nodup_cons.mp h2).2⟩
      have hget : dictGet? (pre ++ (kv.1, e) :: post) kv.1 = some e :=
        dictGet?_append_middle pre kv.1 e post
          (fun hc => hmid.1 (List.mem_append_left _ hc))
      -- record side
      rw [recordOrderBatch_cons, hget]
      -- schema side: split the filterMap at the middle entry
      unfold schemaOrderBatch
      rw [List.filterMap_append, List.filterMap_cons]
      have hgetkv : dictGet? (kv :: rest) kv.1 = some kv.2 := by
        simp [dictGet?]
      simp only [hgetkv]
      have hpre : ∀ me0 ∈ pre,
          (match dictGet? (kv :: rest) me0.1 with
            | some v => some (me0.2.cell, if v = blankSentinel then "" else v)
            | none => none) =
          (match dictGet? rest me0.1 with
            | some v => some (me0.2.cell, if v = blankSentinel then "" else v)
            | none => none) := by
        intro me0 hme0
        have hne0 : kv.1 ≠ me0.1 := by
          intro hc
          exact hmid.1 (List.mem_append_left _ (hc ▸ List.mem_map_of_mem Prod.fst hme0))
        simp [dictGet?, if_neg hne0]
      have hpost : ∀ me0 ∈ post,
          (match dictGet? (kv :: rest) me0.1 with
            | some v => some (me0.2.cell, if v = blankSentinel then "" else v)
            | none => none) =
          (match dictGet? rest me0.1 with
            | some v => some (me0.2.cell, if v = blankSentinel then "" else v)
            | none => none) := by
        intro me0 hme0
        have hne0 : kv.1 ≠ me0.1 := by
          intro hc
          exact hmid.1 (List.mem_append_right _ (hc ▸ List.mem_map_of_mem Prod.fst hme0))
        simp [dictGet?, if_neg hne0]
      rw [List.filterMap_congr hpre, List.filterMap_congr hpost]
      -- the middle schema entry contributes nothing for `rest`
      have hrest_mid : dictGet? rest kv.1 = none :=
        (dictGet?_eq_none_iff rest kv.1).mpr hne'.1
      have hschema_rest : schemaOrderBatch rest (pre ++ (kv.1, e) :: post) =
          pre.filterMap
              (fun me0 =>
                match dictGet? rest me0.1 with
                | some v => some (me0.2.cell, if v = blankSentinel then "" else v)
                | none => none) ++
            post.filterMap
              (fun me0 =>
                match dictGet? rest me0.1 with
                | some v => some (me0.2.cell, if v = blankSentinel then "" else v)
                | none => none) := by
        unfold schemaOrderBatch
        rw [List.filterMap_append, List.filterMap_cons]
        simp only [hrest_mid]
      refine List.Perm.trans (List.Perm.cons _ (ih (pre ++ (kv.1, e) :: post) hne'.2 hnm)) ?_
      rw [hschema_rest]
      exact List.perm_middle.symm
    · -- the record key is not a schema field
      have hnone : dictGet? mapping kv.1 = none := (dictGet?_eq_none_iff mapping kv.1).mpr hk
      rw [recordOrderBatch_cons, hnone]
      have hcongr : ∀ me0 ∈ mapping,
          (match dictGet? (kv :: rest) me0.1 with
            | some v => some (me0.2.cell, if v = blankSentinel then "" else v)
            | none => none) =
          (match dictGet? rest me0.1 with
            | some v => some (me0.2.cell, if v = blankSentinel then "" else v)
            | none => none) := by
        intro me0 hme0
        have hne0 : kv.1 ≠ me0.1 := by
          intro hc
          exact hk (hc ▸ List.mem_map_of_mem Prod.fst hme0)
        simp [dictGet?, if_neg hne0]
      have hschema : schemaOrderBatch (kv :: rest) mapping = schemaOrderBatch rest mapping := by
        unfold schemaOrderBatch
        exact List.filterMap_congr hcongr
      rw [hschema]
      simpa using ih mapping hne'.2 hnm

/-- C7 amended: the write batch is built by iterating the RECORD's items in
insertion order (not schema order), emitting one pair per record key that is
a schema field; blank-sentinel values are written as the empty string and the
sentinel text is never written; record keys that are not schema fields are
silently ignored; and when both key lists are duplicate-free the emitted
pairs are exactly the schema-order pairs, up to order. -/
theorem C7_write_batch_construction :
    (∀ (extracted : Dict String) (mapping : Dict SchemaEntry),
      (write_to_sheet extracted mapping).1 = recordOrderBatch extracted mapping) ∧
    (∀ (extracted : Dict String) (mapping : Dict SchemaEntry) p,
      p ∈ (write_to_sheet extracted mapping).1 → p.2 ≠ blankSentinel) ∧
    (∀ (extracted : Dict String) (mapping : Dict SchemaEntry) (kv : String × String),
      dictGet? mapping kv.1 = none →
      (write_to_sheet (kv :: extracted) mapping).1 = (write_to_sheet extracted mapping).1) ∧
    (∀ (extracted : Dict String) (mapping : Dict SchemaEntry),
      (dKeys extracted).Nodup → (dKeys mapping).Nodup →
      (write_to_sheet extracted mapping).1.Perm (schemaOrderBatch extracted mapping)) := by
  have hbatch : ∀ (extracted : Dict String) (mapping : Dict SchemaEntry),
      (write_to_sheet extracted mapping).1 = recordOrderBatch extracted mapping := by
    intro extracted mapping
    simp only [write_to_sheet, buildSheetUpdates_eq]
  refine ⟨hbatch, ?_, ?_, ?_⟩
  · intro extracted mapping p hp
    rw [hbatch] at hp
    obtain ⟨kv, _, heq⟩ := List.mem_filterMap.mp hp
    cases hg : dictGet? mapping kv.1 with
    | none => rw [hg] at heq; simp at heq
    | some e =>
      rw [hg] at heq
      simp only [Option.map_some', Option.some.injEq] at heq
      subst heq
      by_cases hv : kv.2 = blankSentinel
      · simp only [if_pos hv]
        decide
      · simp only [if_neg hv]
        exact hv
  · intro extracted mapping kv hnone
    rw [hbatch, hbatch, recordOrderBatch_cons, hnone]
    rfl
  · intro extracted mapping hne hnm
    rw [hbatch]
    exact perm_record_schema extracted mapping hne hnm

/-- Witness for C7's amended claim at the counterexample input: the code's
batch is a permutation of the schema-order batch there. -/
theorem C7_write_batch_construction_witness :
    (write_to_sheet [("b", "2"), ("a", "1")]
        [("a", ⟨"A1", []⟩), ("b", ⟨"B1", []⟩)]).1.Perm
      (schemaOrderBatch [("b", "2"), ("a", "1")]
        [("a", ⟨"A1", []⟩), ("b", ⟨"B1", []⟩)]) :=
  C7_write_batch_construction.2.2.2 [("b", "2"), ("a", "1")]
    [("a", ⟨"A1", []⟩), ("b", ⟨"B1", []⟩)] (by decide) (by decide)

/-! ## Claim C8: summarizer parse-failure behavior -/

/-- C8 counterexample: on a parse failure the management-meeting summarizer
does not surface `None`; it returns the fixed fallback record. -/
theorem C8_counterexample :
    (mgmtSummaryPost (fun _ => JsonResult.fail "Expecting value") "x").1 =
        some mgmtFallback ∧
      (mgmtSummaryPost (fun _ => JsonResult.fail "Expecting value") "x").1 ≠ none := by
  constructor
  · rfl
  · intro h
    simp [mgmtSummaryPost, mgmtCleanResponse] at h

/-- C8 amended: on a JSON parse failure the service-meeting summarizer
surfaces `none` while the management-meeting summarizer returns the fixed
fallback record; in both cases exactly one parse attempt is made, on the
cleaned response text only — no bracket repair is attempted. -/
theorem C8_no_repair_on_summaries (jp : JsonOracle String) (t : String) :
    ((∃ m, jp (serviceCleanResponse t) = .fail m) →
      serviceSummaryPost jp t = (none, [serviceCleanResponse t])) ∧
    ((∃ m, jp (mgmtCleanResponse t) = .fail m) →
      mgmtSummaryPost jp t = (some mgmtFallback, [mgmtCleanResponse t])) ∧
    (serviceSummaryPost jp t).2 = [serviceCleanResponse t] ∧
    (mgmtSummaryPost jp t).2 = [mgmtCleanResponse t] := by
  refine ⟨?_, ?_, ?_, ?_⟩
  · rintro ⟨m, hm⟩
    simp [serviceSummaryPost, hm]
  · rintro ⟨m, hm⟩
    simp [mgmtSummaryPost, hm]
  · cases h : jp (serviceCleanResponse t) <;> simp [serviceSummaryPost, h]
  · cases h : jp (mgmtCleanResponse t) <;> simp [mgmtSummaryPost, h]

/-- Witness for C8's amended claim at a concrete input: an always-failing
parser makes the service summarizer surface `none` after its single parse
attempt. -/
theorem C8_no_repair_on_summaries_witness :
    serviceSummaryPost (fun _ => JsonResult.fail "Expecting value") "x" =
      (none, [serviceCleanResponse "x"]) :=
  (C8_no_repair_on_summaries (fun _ => JsonResult.fail "Expecting value") "x").1
    ⟨"Expecting value", rfl⟩

/-! ## Helper lemmas: Python str.split on markdown fences -/

theorem splitGo_fuel_inv (sep : List Char) :
    ∀ (f g : Nat) (s cur : List Char), s.length ≤ f → s.length ≤ g →
      splitGo sep f s cur = splitGo sep g s cur := by
  intro f
  induction f with
  | zero =>
    intro g s cur hf _
    have hs : s = [] := List.eq_nil_of_length_eq_zero (by omega)
    subst hs
    cases g <;> rfl
  | succ f ih =>
    intro g s cur hf hg
    cases s with
    | nil => cases g <;> rfl
    | cons c rest =>
      cases g with
      | zero => simp at hg
      | succ g' =>
        simp only [splitGo]
        split
        · refine congrArg _ (ih g' _ [] ?_ ?_) <;>
            simp only [List.length_drop] <;> simp at hf hg <;> omega
        · refine ih g' rest (c :: cur) ?_ ?_ <;> simp at hf hg <;> omega

theorem splitGo_clean_chunk :
    ∀ (mid : List Char), (∀ c ∈ mid, c ≠ '`') →
      ∀ (fuel : Nat) (s₂ cur : List Char), mid.length + s₂.length ≤ fuel →
        splitGo "```".data fuel (mid ++ s₂) cur =
          splitGo "```".data s₂.length s₂ (mid.reverse ++ cur) := by
  intro mid
  induction mid with
  | nil =>
    intro _ fuel s₂ cur hfuel
    simp only [List.nil_append, List.reverse_nil]
    exact splitGo_fuel_inv _ fuel s₂.length s₂ cur (by simpa using hfuel) le_rfl
  | cons c mid' ih =>
    intro h fuel s₂ cur hfuel
    have hc : c ≠ '`' := h c (List.mem_cons_self c mid')
    cases fuel with
    | zero => simp at hfuel
    | succ f =>
      rw [List.cons_append]
      show splitGo "```".data (f + 1) (c :: (mid' ++ s₂)) cur = _
      simp only [splitGo]
      rw [if_neg]
      · rw [ih (fun x hx => h x (List.mem_cons_of_mem c hx)) f s₂ (c :: cur)
          (by simp at hfuel ⊢; omega)]
        simp [List.append_assoc]
      · show ¬(List.isPrefixOf "```".data (c :: (mid' ++ s₂)) = true)
        show ¬(List.isPrefixOf ['`', '`', '`'] (c :: (mid' ++ s₂)) = true)
        simp only [List.isPrefixOf, Bool.and_eq_true, beq_iff_eq]
        intro hcontra
        exact hc hcontra.1.symm

theorem splitGo_fence_start :
    ∀ (fuel : Nat) (r cur : List Char), ("```".data ++ r).length ≤ fuel →
      splitGo "```".data fuel ("```".data ++ r) cur =
        cur.reverse :: splitGo "```".data r.length r [] := by
  intro fuel r cur hfuel
  have hlen : ("```".data ++ r).length = r.length + 3 := by
    simp [List.length_append]
  cases fuel with
  | zero => omega
  | succ f =>
    show splitGo "```".data (f + 1) ('`' :: ('`' :: '`' :: r)) cur = _
    simp only [splitGo]
    rw [if_pos]
    · have hdrop : ('`' :: '`' :: r).drop ("```".data.length - 1) = r := rfl
      rw [hdrop]
      exact congrArg _ (splitGo_fuel_inv _ f r.length r [] (by omega) le_rfl)
    · show List.isPrefixOf ['`', '`', '`'] ('`' :: '`' :: '`' :: r) = true
      simp [List.isPrefixOf]

theorem splitGo_fence_self (cur : List Char) :
    splitGo "```".data 3 "```".data cur = [cur.reverse, []] := by
  show splitGo "```".data (2 + 1) ('`' :: '`' :: '`' :: []) cur = [cur.reverse, []]
  simp only [splitGo]
  rw [if_pos (by rfl)]
  rfl

theorem splitList_fence_wrap (body : List Char) (h : ∀ c ∈ body, c ≠ '`') :
    splitList "```".data ("```".data ++ body ++ "```".data) = [[], body, []] := by
  unfold splitList
  rw [List.append_assoc, splitGo_fence_start _ _ _ le_rfl]
  rw [splitGo_clean_chunk body h _ _ _ (by simp)]
  have h3 : ("```".data).length = 3 := rfl
  rw [h3, splitGo_fence_self]
  simp

theorem splitList_clean (body : List Char) (h : ∀ c ∈ body, c ≠ '`') :
    splitList "```".data body = [body] := by
  unfold splitList
  rw [show body = body ++ ([] : List Char) by simp] at h ⊢
  rw [splitGo_clean_chunk body (by simpa using h) _ _ _ (by simp)]
  simp [splitGo]

theorem pySplit_fence_wrap (body : String) (h : ∀ c ∈ body.data, c ≠ '`') :
    pySplit "```" ("```" ++ body ++ "```") = ["", body, ""] := by
  unfold pySplit
  have hd : ("```" ++ body ++ "```").data = "```".data ++ body.data ++ "```".data := by
    simp
  rw [hd, splitList_fence_wrap body.data h]
  rfl

theorem pySplit_clean (body : String) (h : ∀ c ∈ body.data, c ≠ '`') :
    pySplit "```" body = [body] := by
  unfold pySplit
  rw [splitList_clean body.data h]
  rfl

theorem pyContains_fence_wrap (body : String) :
    pyContains ("```" ++ body ++ "```") "```" = true := by
  rw [pyContains_iff_sub]
  exact ⟨[], body.data ++ "```".data, by simp⟩

/-- C10: in the service-meeting summarizer's cleaning, a response wholly
wrapped in plain fences (no json marker) is cleaned to the text before the
first fence — the empty string — so JSON parsing fails and the summarizer
returns `none`; the cleaning shared by the other call sites keeps the
content between the fences instead. -/
theorem C10_service_plain_fence (body : String)
    (hb : ∀ c ∈ body.data, c ≠ '`')
    (hnj : pyContains ("```" ++ body ++ "```") "```json" = false) :
    serviceCleanResponse ("```" ++ body ++ "```") = "" ∧
    (∀ (jp : JsonOracle String) (m : String), jp "" = .fail m →
      (serviceSummaryPost jp ("```" ++ body ++ "```")).1 = none) ∧
    stripFenceKeepInner ("```" ++ body ++ "```") = pyStrip body ∧
    mgmtCleanResponse "```\n\x7b\"a\": \"b\"\x7d\n```" = "\x7b\"a\": \"b\"\x7d" := by
  have hcont := pyContains_fence_wrap body
  have h1 : serviceCleanResponse ("```" ++ body ++ "```") = "" := by
    unfold serviceCleanResponse
    rw [hnj, if_neg Bool.false_ne_true, hcont, if_pos rfl]
    rw [pySplit_fence_wrap body hb]
    rfl
  refine ⟨h1, ?_, ?_, ?_⟩
  · intro jp m hjp
    simp [serviceSummaryPost, h1, hjp]
  · unfold stripFenceKeepInner
    rw [hnj, if_neg Bool.false_ne_true, hcont, if_pos rfl]
    rw [pySplit_fence_wrap body hb]
    show pyStrip ((pySplit "```" body).headD "") = pyStrip body
    rw [pySplit_clean body hb]
    rfl
  · decide

/-- Witness for C10 at a concrete input: a response consisting only of a
plain-fenced block is cleaned to the empty string. -/
theorem C10_service_plain_fence_witness :
    serviceCleanResponse ("```" ++ "abc" ++ "```") = "" :=
  (C10_service_plain_fence "abc" (by decide) (by decide)).1

/-! ## Helper lemmas: reconciliation batching -/

theorem batchSlicesGo_length {α : Type} :
    ∀ (f : Nat) (l : List α), l.length ≤ f →
      (batchSlicesGo f l).length = (l.length + 29) / 30 := by
  intro f
  induction f with
  | zero =>
    intro l hl
    have : l = [] := List.eq_nil_of_length_eq_zero (by omega)
    subst this
    simp [batchSlicesGo]
  | succ f ih =>
    intro l hl
    cases l with
    | nil => simp [batchSlicesGo]
    | cons c rest =>
      simp only [batchSlicesGo, List.length_cons]
      rw [ih _ (by simp only [List.length_drop, List.length_cons] at hl ⊢; omega)]
      simp only [List.length_drop, List.length_cons]
      omega

theorem batchSlicesGo_mem {α : Type} :
    ∀ (f : Nat) (l : List α) (ch : List α), ch ∈ batchSlicesGo f l →
      ∀ x ∈ ch, x ∈ l := by
  intro f
  induction f with
  | zero =>
    intro l ch hch
    cases l <;> simp [batchSlicesGo] at hch
  | succ f ih =>
    intro l ch hch x hx
    cases l with
    | nil => simp [batchSlicesGo] at hch
    | cons c rest =>
      simp only [batchSlicesGo, List.mem_cons] at hch
      rcases hch with h | h
      · subst h
        exact List.take_subset 30 (c :: rest) hx
      · exact List.drop_subset 30 (c :: rest) (ih _ ch h x hx)

theorem foldl_merge_keys {V : Type} (f : Nat → Dict V) :
    ∀ (L : List Nat) (acc : Dict V) (x : String),
      x ∈ dKeys (L.foldl
        (fun a i =>
          let b := f i
          if b.isEmpty then a else dictUpdate a b) acc) →
      x ∈ dKeys acc ∨ ∃ i ∈ L, x ∈ dKeys (f i) := by
  intro L
  induction L with
  | nil => intro acc x hx; exact Or.inl hx
  | cons i L' ih =>
    intro acc x hx
    rw [List.foldl_cons] at hx
    rcases ih _ x hx with h | ⟨j, hj, hjx⟩
    · by_cases hb : (f i).isEmpty
      · simp only [hb, if_true] at h
        exact Or.inl h
      · simp only [hb, if_false] at h
        rcases List.mem_append.mp (dKeys_dictUpdate_subset acc (f i) h) with h1 | h1
        · exact Or.inl h1
        · exact Or.inr ⟨i, List.mem_cons_self i L', h1⟩
    · exact Or.inr ⟨j, List.mem_cons_of_mem i hj, hjx⟩

/-- C9: for a nonempty raw record, reconciliation issues exactly
`ceil(N/30)` batches for `N` schema fields, and — whenever every batch's
parsed output uses only that batch's field names, as the batch prompt
instructs — the keys of the merged result are a subset of the schema's
field names. -/
theorem C9_reconciliation_batching {V W : Type} (jp : JsonOracle W)
    (bor : Nat → BatchOutcome) (mapping : Dict V) (raw : Dict W)
    (hraw : raw ≠ []) :
    (map_extracted_data_to_schema jp bor mapping raw).2 = (mapping.length + 29) / 30 ∧
    (mapping ≠ [] →
      (∀ i, i < (batchSlices (dKeys mapping)).length →
        dKeys (batchResult jp bor i) ⊆ (batchSlices (dKeys mapping)).getD i []) →
      dKeys (map_extracted_data_to_schema jp bor mapping raw).1 ⊆ dKeys mapping) := by
  have hrawe : raw.isEmpty = false := by
    cases raw with
    | nil => exact absurd rfl hraw
    | cons p rest => rfl
  constructor
  · by_cases hm : mapping = []
    · subst hm
      simp [map_extracted_data_to_schema]
    · have hme : mapping.isEmpty = false := by
        cases mapping with
        | nil => exact absurd rfl hm
        | cons p rest => rfl
      simp only [map_extracted_data_to_schema, hme, hrawe, Bool.or_self, Bool.false_eq_true,
        if_false]
      unfold batchSlices
      rw [batchSlicesGo_length _ _ le_rfl]
      simp [dKeys]
  · intro hm hconf
    have hme : mapping.isEmpty = false := by
      cases mapping with
      | nil => exact absurd rfl hm
      | cons p rest => rfl
    simp only [map_extracted_data_to_schema, hme, hrawe, Bool.or_self, Bool.false_eq_true,
      if_false]
    intro x hx
    rcases foldl_merge_keys (batchResult jp bor) _ [] x hx with h | ⟨i, hi, hix⟩
    · simp [dKeys] at h
    · rw [List.mem_range] at hi
      have hsub := hconf i hi hix
      rw [List.getD_eq_getElem _ _ hi] at hsub
      have hch : (batchSlices (dKeys mapping))[i] ∈ batchSlices (dKeys mapping) :=
        List.getElem_mem hi
      exact batchSlicesGo_mem _ _ _ hch x hsub

/-- Witness for C9 at a concrete input: 35 schema fields and a nonempty
record yield exactly 2 batches. -/
theorem C9_reconciliation_batching_witness :
    (map_extracted_data_to_schema
        (fun _ => JsonResult.fail (V := String) "e") (fun _ => BatchOutcome.blocked "2")
        ((List.range 35).map (fun i => (toString i, "C" ++ toString i)))
        [("x", "y")]).2 = (((List.range 35).map (fun i => (toString i, "C" ++ toString i))).length + 29) / 30 :=
  (C9_reconciliation_batching (fun _ => JsonResult.fail (V := String) "e")
    (fun _ => BatchOutcome.blocked "2")
    ((List.range 35).map (fun i => (toString i, "C" ++ toString i)))
    [("x", "y")] (by decide)).1

/-! ## Helper lemmas: document extractor -/

theorem dKeys_processFragment_supset {V : Type} (jp : JsonOracle V)
    (att : Nat → FragAttempt) (sect : String) (acc : Dict V) :
    dKeys acc ⊆ dKeys (processFragment jp att sect acc).1 := by
  unfold processFragment
  cases fragGo att sect 5 0 with
  | failure m c => exact fun x hx => hx
  | success t c =>
    dsimp only
    cases (parseWithRepair jp (stripFenceKeepInner t)).1 with
    | none => exact fun x hx => hx
    | some d =>
      dsimp only
      by_cases hd : d.isEmpty
      · rw [if_pos hd]; exact fun x hx => hx
      · rw [if_neg hd]; exact dKeys_subset_dictUpdate acc d

theorem dKeys_runFragments_supset {V : Type} (jp : JsonOracle V)
    (gen : Nat → Nat → FragAttempt) :
    ∀ (sections : List String) (i : Nat) (acc : Dict V),
      dKeys acc ⊆ dKeys (runFragments jp gen sections i acc).1 := by
  intro sections
  induction sections with
  | nil => intro i acc; exact fun x hx => hx
  | cons s rest ih =>
    intro i acc x hx
    exact ih (i + 1) _ (dKeys_processFragment_supset jp (gen i) s acc hx)

theorem runFragments_append {V : Type} (jp : JsonOracle V)
    (gen : Nat → Nat → FragAttempt) :
    ∀ (pre post : List String) (i : Nat) (acc : Dict V),
      runFragments jp gen (pre ++ post) i acc =
        ((runFragments jp gen post (i + pre.length)
            (runFragments jp gen pre i acc).1).1,
          (runFragments jp gen pre i acc).2 ++
            (runFragments jp gen post (i + pre.length)
              (runFragments jp gen pre i acc).1).2) := by
  intro pre
  induction pre with
  | nil => intro post i acc; simp [runFragments]
  | cons s pre' ih =>
    intro post i acc
    simp only [List.cons_append, runFragments, List.append_eq]
    rw [ih post (i + 1) (processFragment jp (gen i) s acc).1]
    have harith : i + 1 + pre'.length = i + (pre'.length + 1) := by omega
    simp [harith]

theorem runFragments_length {V : Type} (jp : JsonOracle V)
    (gen : Nat → Nat → FragAttempt) :
    ∀ (sections : List String) (i : Nat) (acc : Dict V),
      (runFragments jp gen sections i acc).2.length = sections.length := by
  intro sections
  induction sections with
  | nil => intro i acc; rfl
  | cons s rest ih =>
    intro i acc
    simp only [runFragments, List.length_cons]
    rw [ih]

/-- C3: the extractor returns `none` exactly when the pipeline-level upload
phase raises; otherwise it returns the accumulated record; the accumulator's
key set only grows (later fragments never remove earlier keys). -/
theorem C3_extractor_return_policy {V : Type} (jp : JsonOracle V)
    (uploads : List UploadEvent) (gen : Nat → Nat → FragAttempt)
    (sections : List String) :
    ((extract_from_pdf jp uploads gen sections).result = none ↔
      (uploadPhase uploads).2.2.isSome) ∧
    ((uploadPhase uploads).2.2 = none →
      (extract_from_pdf jp uploads gen sections).result =
        some (runFragments jp gen sections 0 []).1) ∧
    (∀ (sections' : List String) (i : Nat) (acc : Dict V),
      dKeys acc ⊆ dKeys (runFragments jp gen sections' i acc).1) ∧
    (∀ (pre post : List String) (i : Nat) (acc : Dict V),
      dKeys (runFragments jp gen pre i acc).1 ⊆
        dKeys (runFragments jp gen (pre ++ post) i acc).1) := by
  refine ⟨?_, ?_, ?_, ?_⟩
  · cases h : (uploadPhase uploads).2.2 with
    | none => simp [extract_from_pdf, extractBody, h]
    | some m => simp [extract_from_pdf, extractBody, h]
  · intro h
    simp [extract_from_pdf, extractBody, h]
  · exact dKeys_runFragments_supset jp gen
  · intro pre post i acc
    rw [runFragments_append]
    exact dKeys_runFragments_supset jp gen post (i + pre.length) _

/-- Witness for C3 at a concrete input: an upload-phase exception yields
result `none` (and, separately evaluated, all-blocked fragments yield the
empty accumulated mapping rather than `none`). -/
theorem C3_extractor_return_policy_witness :
    (extract_from_pdf (fun _ => JsonResult.fail (V := String) "e")
        [.uraised "io error"] (fun _ _ => FragAttempt.blocked "2") ["sec"]).result =
      none :=
  (C3_extractor_return_policy (fun _ => JsonResult.fail (V := String) "e")
    [.uraised "io error"] (fun _ _ => FragAttempt.blocked "2") ["sec"]).1.mpr
    (by decide)

/-! ## Claims C1 and C2 -/

theorem fragGo_blocked_step (att : Nat → FragAttempt) (sect : String)
    (fuel calls : Nat) (r : String) (hatt : att calls = .blocked r)
    (hf : fuel ≠ 0) :
    fragGo att sect (fuel + 1) calls = fragGo att sect fuel (calls + 1) := by
  simp only [fragGo]
  rw [hatt]
  dsimp only
  rw [if_neg hf]

theorem fragGo_blocked_last (att : Nat → FragAttempt) (sect : String)
    (calls : Nat) (r : String) (hatt : att calls = .blocked r) :
    fragGo att sect (0 + 1) calls = .failure (sectionBlockedMsg sect) (calls + 1) := by
  simp only [fragGo]
  rw [hatt]
  simp

/-- C1 counterexample: with every response blocked, each extraction
fragment's prompt is submitted 5 times — the blocked prompt IS resubmitted,
so the per-fragment call counts are [5, 5], not [1, 1]. -/
theorem C1_counterexample :
    (extract_from_pdf (fun _ => JsonResult.fail (V := String) "e") [.uok "f"]
        (fun _ _ => FragAttempt.blocked "2") ["secA", "secB"]).callsPerFrag = [5, 5] ∧
    (extract_from_pdf (fun _ => JsonResult.fail (V := String) "e") [.uok "f"]
        (fun _ _ => FragAttempt.blocked "2") ["secA", "secB"]).callsPerFrag ≠ [1, 1] := by
  constructor
  · decide
  · decide

/-- C1 amended: a reconciliation batch that is blocked is skipped at once
(contributing nothing) with no resubmission, but a blocked extraction
fragment is retried: its prompt is submitted 5 times in total, after which
the fragment is skipped and processing proceeds to the next fragment (one
call-count entry per fragment regardless of failures). -/
theorem C1_block_retry_asymmetry :
    (∀ (att : Nat → FragAttempt) (sect : String),
      (∀ j, j < 5 → ∃ r, att j = .blocked r) →
      fragGo att sect 5 0 = .failure (sectionBlockedMsg sect) 5) ∧
    (∀ (V : Type) (jp : JsonOracle V) (gen : Nat → Nat → FragAttempt)
        (sections : List String) (i : Nat) (acc : Dict V),
      (runFragments jp gen sections i acc).2.length = sections.length) ∧
    (∀ (V : Type) (jp : JsonOracle V) (bor : Nat → BatchOutcome) (i : Nat) (r : String),
      bor i = .blocked r → batchResult jp bor i = []) := by
  refine ⟨?_, ?_, ?_⟩
  · intro att sect h
    obtain ⟨r0, h0⟩ := h 0 (by omega)
    obtain ⟨r1, h1⟩ := h 1 (by omega)
    obtain ⟨r2, h2⟩ := h 2 (by omega)
    obtain ⟨r3, h3⟩ := h 3 (by omega)
    obtain ⟨r4, h4⟩ := h 4 (by omega)
    calc fragGo att sect 5 0
        = fragGo att sect 4 1 := fragGo_blocked_step att sect 4 0 r0 h0 (by omega)
      _ = fragGo att sect 3 2 := fragGo_blocked_step att sect 3 1 r1 h1 (by omega)
      _ = fragGo att sect 2 3 := fragGo_blocked_step att sect 2 2 r2 h2 (by omega)
      _ = fragGo att sect 1 4 := fragGo_blocked_step att sect 1 3 r3 h3 (by omega)
      _ = .failure (sectionBlockedMsg sect) 5 := fragGo_blocked_last att sect 4 r4 h4
  · intro V jp gen sections i acc
    exact runFragments_length jp gen sections i acc
  · intro V jp bor i r h
    simp only [batchResult, h]

/-- Witness for C1's amended claim at a concrete input: with every attempt
blocked, the fragment loop makes exactly 5 calls and then fails the
fragment. -/
theorem C1_block_retry_asymmetry_witness :
    fragGo (fun _ => FragAttempt.blocked "2") "s" 5 0 =
      .failure (sectionBlockedMsg "s") 5 :=
  C1_block_retry_asymmetry.1 (fun _ => FragAttempt.blocked "2") "s"
    (fun _ _ => ⟨"2", rfl⟩)

/-- C2 counterexample: a file whose server-side ingestion ends FAILED was
uploaded to the service but is never tracked, so no delete request is ever
issued for its handle — even on the normal exit path. -/
theorem C2_counterexample :
    "f1" ∈ (extract_from_pdf (fun _ => JsonResult.fail (V := String) "e")
        [.uok "f0", .ufail "f1"] (fun _ _ => FragAttempt.blocked "2") ["sec"]).uploaded ∧
    "f1" ∉ (extract_from_pdf (fun _ => JsonResult.fail (V := String) "e")
        [.uok "f0", .ufail "f1"] (fun _ _ => FragAttempt.blocked "2") ["sec"]).deletes := by
  constructor
  · decide
  · decide

/-- C2 amended: on every exit path (normal return and pipeline-level
exception alike) the extractor issues a delete for exactly the tracked
handles — those whose ingestion completed — and the audio run deletes its
uploaded audio handle on every exit path whenever the upload returned a
handle. -/
theorem C2_cleanup_on_every_path :
    (∀ (V : Type) (jp : JsonOracle V) (uploads : List UploadEvent)
        (gen : Nat → Nat → FragAttempt) (sections : List String),
      (extract_from_pdf jp uploads gen sections).deletes = (uploadPhase uploads).1) ∧
    (∀ (upload : Option String) (rest : BodyOutcome) (h : String),
      upload = some h → (audioMeetingRun upload rest).deletes = [h]) := by
  constructor
  · intro V jp uploads gen sections
    unfold extract_from_pdf
    cases extractBody jp uploads gen sections <;> rfl
  · intro upload rest h hup
    subst hup
    cases rest <;> rfl

/-- Witness for C2's amended claim at a concrete input: the audio handle is
deleted even when the run body raises. -/
theorem C2_cleanup_on_every_path_witness :
    (audioMeetingRun (some "a1") (.raised "processing failed")).deletes = ["a1"] :=
  C2_cleanup_on_every_path.2 (some "a1") (.raised "processing failed") "a1" rfl

/-- Witness for C4 at a concrete input: a conclusion lacking the phrase gets
it appended after the original text. -/
theorem C4_mandatory_phrase_witness :
    dictGet? (enforceMandatoryPhrase [("結論", "1. 続行する")]) conclusionKey =
      some ("1. 続行する" ++ "\n・" ++ mandatoryText) :=
  ((C4_mandatory_phrase [("結論", "1. 続行する")]).1 "1. 続行する" (by decide) (by decide)).1
